import Mathlib

/-!
Shallow embedding of the `buid` crate (`src/lib.rs`): a fixed-width binary
identifier `ID<P, E, N>` holding an `N`-byte buffer, with segment accessors
`prefix` (bytes `[0, P)`), `content` (bytes `[P, N-E)`), `suffix`
(bytes `[N-E, N)`), the full-buffer view `as_bytes`, the fallible parse
`TryFrom<&[u8]>` with its `ParseIDError`, and the derived byte-wise
comparison.

Rust operations that can panic (out-of-bounds slicing, `usize` underflow,
`unwrap`) are modelled with `Option`: `none` is a panic.
-/

namespace Buid

/-- One byte (`u8`). -/
abbrev Byte := Fin 256

/-- Rust `usize` subtraction `a - b`, which fails (panics) on underflow. -/
def checkedSub (a b : Nat) : Option Nat :=
  if b ≤ a then some (a - b) else none

/-- Rust slicing `&buf[a..b]`: fails (panics) unless `a ≤ b ≤ buf.len()`.
`&buf[..b]` is `a = 0` and `&buf[a..]` is `b = buf.len()`. -/
def rustSlice (buf : List Byte) (a b : Nat) : Option (List Byte) :=
  if a ≤ b ∧ b ≤ buf.length then some ((buf.drop a).take (b - a)) else none

/-- `pub struct ID<const P: usize, const E: usize, const N: usize>([u8; N])`:
an `N`-byte buffer; `P` and `E` are phantom layout constants of the kind. -/
@[ext]
structure ID (P E N : Nat) where
  bytes : List Byte
  hlen : bytes.length = N

/-- `ID::new(bytes: [u8; N])`: infallible construction from an exact-length
array (the length is enforced by the type of the argument). -/
def ID.new {P E N : Nat} (b : List Byte) (h : b.length = N) : ID P E N :=
  ⟨b, h⟩

/-- `ID::prefix(&self) -> &[u8]`, i.e. `&self.0[..P]`. -/
def ID.prefixBytes {P E N : Nat} (i : ID P E N) : Option (List Byte) :=
  rustSlice i.bytes 0 P

/-- `ID::suffix(&self) -> &[u8]`, i.e. `&self.0[N - E..]`. -/
def ID.suffix {P E N : Nat} (i : ID P E N) : Option (List Byte) :=
  match checkedSub N E with
  | some k => rustSlice i.bytes k N
  | none => none

/-- `ID::content(&self) -> &[u8]`, i.e. `&self.0[P..N - E]`. -/
def ID.content {P E N : Nat} (i : ID P E N) : Option (List Byte) :=
  match checkedSub N E with
  | some k => rustSlice i.bytes P k
  | none => none

/-- `ID::as_bytes(&self) -> &[u8]`, i.e. `&self.0`. -/
def ID.as_bytes {P E N : Nat} (i : ID P E N) : List Byte :=
  i.bytes

/-- `pub struct ParseIDError { n: usize, src: usize }`: expected length `n`,
actual length `src`. -/
structure ParseIDError where
  n : Nat
  src : Nat
  deriving DecidableEq

/-- `Display for ParseIDError`:
`write!(f, "buid: expected \x7b\x7d bytes, got \x7b\x7d", self.n, self.src)`. -/
def ParseIDError.display (e : ParseIDError) : String :=
  "buid: expected " ++ toString e.n ++ " bytes, got " ++ toString e.src

/-- `<&[u8]>::try_into::<[u8; N]>()`: succeeds iff the slice has length `N`. -/
def sliceTryInto (N : Nat) (value : List Byte) : Option {l : List Byte // l.length = N} :=
  if h : value.length = N then some ⟨value, h⟩ else none

/-- `TryFrom<&[u8]> for ID<P, E, N>`: rejects any input whose length is not
`N`, then converts with `value.try_into().map(Self::new).unwrap()`.
The outer `Option` models the `unwrap`: `none` is a panic. -/
def tryFrom (P E N : Nat) (value : List Byte) : Option (Except ParseIDError (ID P E N)) :=
  if value.length ≠ N then
    some (Except.error ⟨N, value.length⟩)
  else
    (sliceTryInto N value).map fun a => Except.ok (ID.new a.1 a.2)

/-- Rust `u8::cmp`: numeric comparison of two bytes. -/
def cmpByte (a b : Byte) : Ordering :=
  if a < b then .lt else if b < a then .gt else .eq

/-- Derived `Ord` on `[u8; N]`: element-wise, first-difference (lexicographic)
comparison of the two buffers. -/
def cmpBytes : List Byte → List Byte → Ordering
  | [], [] => .eq
  | [], _ :: _ => .lt
  | _ :: _, [] => .gt
  | a :: l₁, b :: l₂ =>
    match cmpByte a b with
    | .eq => cmpBytes l₁ l₂
    | o => o

/-- `#[derive(Ord, PartialOrd)]` on `ID`: compare the single buffer field. -/
def ID.cmp {P E N : Nat} (a b : ID P E N) : Ordering :=
  cmpBytes a.bytes b.bytes

theorem prefixBytes_eq {P E N : Nat} (hP : P ≤ N) (i : ID P E N) :
    i.prefixBytes = some (i.bytes.take P) := by
  simp [ID.prefixBytes, rustSlice, i.hlen, hP]

theorem suffix_eq {P E N : Nat} (hE : E ≤ N) (i : ID P E N) :
    i.suffix = some (i.bytes.drop (N - E)) := by
  have h1 : checkedSub N E = some (N - E) := by simp [checkedSub, hE]
  have h2 : (i.bytes.drop (N - E)).take (N - (N - E)) = i.bytes.drop (N - E) := by
    apply List.take_of_length_le
    simp [i.hlen]
  simp [ID.suffix, h1, rustSlice, i.hlen, Nat.sub_le, h2]

theorem content_eq {P E N : Nat} (h : P + E ≤ N) (i : ID P E N) :
    i.content = some ((i.bytes.drop P).take (N - E - P)) := by
  have hE : E ≤ N := le_trans (Nat.le_add_left E P) h
  have h1 : checkedSub N E = some (N - E) := by simp [checkedSub, hE]
  have hP : P ≤ N - E := Nat.le_sub_of_add_le h
  simp [ID.content, h1, rustSlice, i.hlen, hP, Nat.sub_le]

/-- Claim C1: for every kind `(P, E, N)` with `P + E ≤ N` and every byte
array `b` of length `N`, constructing an identifier from `b` and then
concatenating `prefix()`, `content()` and `suffix()` in that order yields
exactly `b`: the three segments are contiguous, non-overlapping, and
together cover all `N` bytes. -/
theorem segments_reconstruct_buffer (P E N : Nat) (h : P + E ≤ N)
    (b : List Byte) (hb : b.length = N) :
    ∃ p c s,
      (ID.new b hb : ID P E N).prefixBytes = some p ∧
      (ID.new b hb : ID P E N).content = some c ∧
      (ID.new b hb : ID P E N).suffix = some s ∧
      p ++ c ++ s = b := by
  have hP : P ≤ N := le_trans (Nat.le_add_right P E) h
  have hE : E ≤ N := le_trans (Nat.le_add_left E P) h
  refine ⟨_, _, _, prefixBytes_eq hP _, content_eq h _, suffix_eq hE _, ?_⟩
  show b.take P ++ (b.drop P).take (N - E - P) ++ b.drop (N - E) = b
  have hPE : P ≤ N - E := Nat.le_sub_of_add_le h
  have h1 : b.drop (N - E) = (b.drop P).drop (N - E - P) := by
    rw [List.drop_drop]
    congr 1
    omega
  rw [List.append_assoc, h1, List.take_append_drop, List.take_append_drop]

theorem segments_reconstruct_buffer_witness :
    ∃ p c s,
      (ID.new [0, 1, 2] rfl : ID 1 1 3).prefixBytes = some p ∧
      (ID.new [0, 1, 2] rfl : ID 1 1 3).content = some c ∧
      (ID.new [0, 1, 2] rfl : ID 1 1 3).suffix = some s ∧
      p ++ c ++ s = [0, 1, 2] :=
  segments_reconstruct_buffer 1 1 3 (by decide) [0, 1, 2] rfl

/-- Claim C2: for every kind `(P, E, N)` and every byte sequence `s` with
`s.length ≠ N`, parsing `s` via `TryFrom<&[u8]>` fails with a
`ParseIDError` carrying the expected length `N` and the actual length
`s.length`; the input is never padded or truncated. -/
theorem parse_wrong_length_fails (P E N : Nat) (s : List Byte)
    (h : s.length ≠ N) :
    tryFrom P E N s = some (Except.error ⟨N, s.length⟩) := by
  simp [tryFrom, h]

theorem parse_wrong_length_fails_witness :
    tryFrom 1 1 3 [0] = some (Except.error ⟨3, 1⟩) :=
  parse_wrong_length_fails 1 1 3 [0] (by decide)

/-- Claim C3: for every kind `(P, E, N)` and every byte sequence `s` with
`s.length = N`, parsing `s` succeeds and the resulting identifier's full
buffer `as_bytes()` equals `s` byte for byte. -/
theorem parse_exact_length_roundtrip (P E N : Nat) (s : List Byte)
    (h : s.length = N) :
    ∃ i : ID P E N, tryFrom P E N s = some (Except.ok i) ∧ i.as_bytes = s := by
  refine ⟨ID.new s h, ?_, rfl⟩
  simp [tryFrom, h, sliceTryInto, ID.new]

theorem parse_exact_length_roundtrip_witness :
    ∃ i : ID 1 1 3,
      tryFrom 1 1 3 [5, 6, 7] = some (Except.ok i) ∧ i.as_bytes = [5, 6, 7] :=
  parse_exact_length_roundtrip 1 1 3 [5, 6, 7] rfl

/-- Claim C4: for every kind `(P, E, N)` with `P + E ≤ N` and every
identifier, regardless of byte values, the prefix view has length exactly
`P`, the content view has length exactly `N - P - E`, and the suffix view
has length exactly `E`. -/
theorem segment_lengths (P E N : Nat) (h : P + E ≤ N) (i : ID P E N) :
    ∃ p c s,
      i.prefixBytes = some p ∧ p.length = P ∧
      i.content = some c ∧ c.length = N - P - E ∧
      i.suffix = some s ∧ s.length = E := by
  have hP : P ≤ N := le_trans (Nat.le_add_right P E) h
  have hE : E ≤ N := le_trans (Nat.le_add_left E P) h
  refine ⟨_, _, _, prefixBytes_eq hP i, ?_, content_eq h i, ?_, suffix_eq hE i, ?_⟩
  · simp [i.hlen, hP]
  · simp [i.hlen]
    omega
  · simp [i.hlen]
    omega

theorem cmpByte_lt_iff (a b : Byte) : cmpByte a b = .lt ↔ a < b := by
  rcases lt_trichotomy a b with h | h | h
  · simp [cmpByte, h]
  · simp [cmpByte, h, lt_irrefl]
  · simp [cmpByte, h, not_lt_of_gt h, asymm h]

theorem cmpByte_eq_iff (a b : Byte) : cmpByte a b = .eq ↔ a = b := by
  rcases lt_trichotomy a b with h | h | h
  · simp [cmpByte, h, ne_of_lt h]
  · simp [cmpByte, h, lt_irrefl]
  · simp [cmpByte, h, not_lt_of_gt h, ne_of_gt h]

theorem cmpByte_gt_iff (a b : Byte) : cmpByte a b = .gt ↔ b < a := by
  rcases lt_trichotomy a b with h | h | h
  · simp [cmpByte, h, asymm h]
  · simp [cmpByte, h, lt_irrefl]
  · simp [cmpByte, h, not_lt_of_gt h]

theorem cmpBytes_eq_iff (l₁ l₂ : List Byte) : cmpBytes l₁ l₂ = .eq ↔ l₁ = l₂ := by
  induction l₁ generalizing l₂ with
  | nil => cases l₂ <;> simp [cmpBytes]
  | cons a l₁ ih =>
    cases l₂ with
    | nil => simp [cmpBytes]
    | cons b l₂ =>
      rcases hb : cmpByte a b with _ | _ | _
      · have hab : a < b := (cmpByte_lt_iff a b).mp hb
        simp [cmpBytes, hb, ne_of_lt hab]
      · have hab : a = b := (cmpByte_eq_iff a b).mp hb
        subst hab
        simp [cmpBytes, hb, ih]
      · have hab : b < a := (cmpByte_gt_iff a b).mp hb
        simp [cmpBytes, hb, ne_of_gt hab]

theorem cmpBytes_lt_iff (l₁ l₂ : List Byte) :
    cmpBytes l₁ l₂ = .lt ↔ List.Lex (· < ·) l₁ l₂ := by
  induction l₁ generalizing l₂ with
  | nil =>
    cases l₂ with
    | nil =>
      simp [cmpBytes]
    | cons b l₂ =>
      simp [cmpBytes]
      exact List.Lex.nil
  | cons a l₁ ih =>
    cases l₂ with
    | nil =>
      simp [cmpBytes]
    | cons b l₂ =>
      rcases hb : cmpByte a b with _ | _ | _
      · have hab : a < b := (cmpByte_lt_iff a b).mp hb
        simp [cmpBytes, hb]
        exact List.Lex.rel hab
      · have hab : a = b := (cmpByte_eq_iff a b).mp hb
        subst hab
        have hred : cmpBytes (a :: l₁) (a :: l₂) = cmpBytes l₁ l₂ := by
          simp [cmpBytes, hb]
        rw [hred, ih]
        exact List.Lex.cons_iff.symm
      · have hab : b < a := (cmpByte_gt_iff a b).mp hb
        simp [cmpBytes, hb]
        intro hlex
        cases hlex with
        | cons h => exact absurd hab (lt_irrefl _)
        | rel h => exact absurd h (asymm hab)

theorem cmpBytes_gt_iff (l₁ l₂ : List Byte) :
    cmpBytes l₁ l₂ = .gt ↔ List.Lex (· < ·) l₂ l₁ := by
  induction l₁ generalizing l₂ with
  | nil =>
    cases l₂ with
    | nil =>
      simp [cmpBytes]
    | cons b l₂ =>
      simp [cmpBytes]
  | cons a l₁ ih =>
    cases l₂ with
    | nil =>
      simp [cmpBytes]
      exact List.Lex.nil
    | cons b l₂ =>
      rcases hb : cmpByte a b with _ | _ | _
      · have hab : a < b := (cmpByte_lt_iff a b).mp hb
        simp [cmpBytes, hb]
        intro hlex
        cases hlex with
        | cons h => exact absurd hab (lt_irrefl _)
        | rel h => exact absurd h (asymm hab)
      · have hab : a = b := (cmpByte_eq_iff a b).mp hb
        subst hab
        have hred : cmpBytes (a :: l₁) (a :: l₂) = cmpBytes l₁ l₂ := by
          simp [cmpBytes, hb]
        rw [hred, ih]
        exact List.Lex.cons_iff.symm
      · have hab : b < a := (cmpByte_gt_iff a b).mp hb
        simp [cmpBytes, hb]
        exact List.Lex.rel hab

/-- Claim C5: for every kind, two identifiers are equal iff their `N`-byte
buffers are byte-for-byte equal; the derived comparison is exactly the
lexicographic (byte-wise) order of the underlying buffers, and it is a
total order: `cmp` returns `eq` exactly on equal identifiers, `gt` is the
swap of `lt`, and `lt` is transitive, so any two identifiers are ordered. -/
theorem id_eq_and_ord_spec (P E N : Nat) (a b c : ID P E N) :
    (a = b ↔ a.as_bytes = b.as_bytes) ∧
    (ID.cmp a b = .eq ↔ a = b) ∧
    (ID.cmp a b = .lt ↔ List.Lex (· < ·) a.as_bytes b.as_bytes) ∧
    (ID.cmp a b = .gt ↔ ID.cmp b a = .lt) ∧
    (ID.cmp a b = .lt → ID.cmp b c = .lt → ID.cmp a c = .lt) := by
  have hext : a = b ↔ a.as_bytes = b.as_bytes :=
    ⟨fun h => h ▸ rfl, fun h => ID.ext h⟩
  refine ⟨hext, (cmpBytes_eq_iff a.bytes b.bytes).trans hext.symm,
    cmpBytes_lt_iff a.bytes b.bytes,
    (cmpBytes_gt_iff a.bytes b.bytes).trans (cmpBytes_lt_iff b.bytes a.bytes).symm,
    fun h1 h2 => ?_⟩
  rw [ID.cmp, cmpBytes_lt_iff] at h1 h2 ⊢
  exact IsTrans.trans _ _ _ h1 h2

theorem id_eq_and_ord_spec_witness :
    ID.cmp (ID.new [0] rfl : ID 0 0 1) (ID.new [2] rfl) = .lt :=
  (id_eq_and_ord_spec 0 0 1 (ID.new [0] rfl) (ID.new [1] rfl)
    (ID.new [2] rfl)).2.2.2.2 (by decide) (by decide)

theorem segment_lengths_witness :
    ∃ p c s,
      (ID.new [9, 9, 9] rfl : ID 1 1 3).prefixBytes = some p ∧ p.length = 1 ∧
      (ID.new [9, 9, 9] rfl : ID 1 1 3).content = some c ∧ c.length = 3 - 1 - 1 ∧
      (ID.new [9, 9, 9] rfl : ID 1 1 3).suffix = some s ∧ s.length = 1 :=
  segment_lengths 1 1 3 (by decide) (ID.new [9, 9, 9] rfl)

/-- Claim C6: the textual rendering of the error includes both the expected
and the actual length; for the kind with `N = 43`, parsing a 40-byte input
produces an error whose rendered message is exactly
`"buid: expected 43 bytes, got 40"`. -/
theorem display_includes_both_lengths :
    (∀ e : ParseIDError,
      e.display = "buid: expected " ++ toString e.n ++ " bytes, got " ++ toString e.src) ∧
    ∃ e : ParseIDError,
      tryFrom 3 8 43 (List.replicate 40 0) = some (Except.error e) ∧
      e.display = "buid: expected 43 bytes, got 40" :=
  ⟨fun _ => rfl, ⟨43, 40⟩, rfl, by decide⟩

/-- Claim C7 counterexample: the code never validates `P + E ≤ N`, so for
the kind `(P, E, N) = (2, 0, 1)` an identifier exists whose `prefix()`
panics (slice end `2` is out of bounds for the 1-byte buffer): segment
reads are not infallible for every kind, contrary to the claim. -/
theorem segment_read_panics_for_invalid_kind :
    (ID.new [0] rfl : ID 2 0 1).prefixBytes = none := by decide

/-- Claim C7 (amended): for every kind `(P, E, N)` with `P + E ≤ N` and
every constructed identifier, the accessors `prefix()`, `content()` and
`suffix()` never fail: every slice is in bounds. -/
theorem segment_reads_infallible (P E N : Nat) (h : P + E ≤ N)
    (i : ID P E N) :
    i.prefixBytes.isSome ∧ i.content.isSome ∧ i.suffix.isSome := by
  have hP : P ≤ N := le_trans (Nat.le_add_right P E) h
  have hE : E ≤ N := le_trans (Nat.le_add_left E P) h
  simp [prefixBytes_eq hP i, content_eq h i, suffix_eq hE i]

theorem segment_reads_infallible_witness :
    (ID.new [1, 2, 3] rfl : ID 1 1 3).prefixBytes.isSome ∧
    (ID.new [1, 2, 3] rfl : ID 1 1 3).content.isSome ∧
    (ID.new [1, 2, 3] rfl : ID 1 1 3).suffix.isSome :=
  segment_reads_infallible 1 1 3 (by decide) (ID.new [1, 2, 3] rfl)

/-- Claim C8: empty-segment edge cases. If `P = 0` the prefix view is
empty; if `E = 0` the suffix view is empty; if `P = N - E` (with `E ≤ N`)
the content view is empty; and for the kind `P = 0, E = 0, N = 16` every
identifier has empty prefix and suffix views and a content view equal to
the full 16-byte buffer. -/
theorem empty_segment_cases :
    (∀ (P E N : Nat) (i : ID P E N),
      (P = 0 → i.prefixBytes = some []) ∧
      (E = 0 → i.suffix = some []) ∧
      (E ≤ N → P = N - E → i.content = some [])) ∧
    ∀ i : ID 0 0 16,
      i.prefixBytes = some [] ∧ i.suffix = some [] ∧ i.content = some i.as_bytes := by
  constructor
  · intro P E N i
    refine ⟨?_, ?_, ?_⟩
    · intro hP
      subst hP
      simp [ID.prefixBytes, rustSlice]
    · intro hE
      subst hE
      simp [ID.suffix, checkedSub, rustSlice, i.hlen]
    · intro hE hP
      subst hP
      have h1 : checkedSub N E = some (N - E) := by simp [checkedSub, hE]
      simp [ID.content, h1, rustSlice, i.hlen, Nat.sub_le]
  · intro i
    have h1 : i.content = some ((i.bytes.drop 0).take (16 - 0 - 0)) :=
      content_eq (by omega) i
    refine ⟨?_, ?_, ?_⟩
    · simp [ID.prefixBytes, rustSlice]
    · simp [ID.suffix, checkedSub, rustSlice, i.hlen]
    · rw [h1]
      simp [ID.as_bytes, List.take_of_length_le, i.hlen]

theorem empty_segment_cases_witness :
    (ID.new [7] rfl : ID 0 2 1).prefixBytes = some [] ∧
    (ID.new [7] rfl : ID 3 0 1).suffix = some [] ∧
    (ID.new [5, 6] rfl : ID 1 1 2).content = some [] ∧
    (ID.new (List.replicate 16 0) rfl : ID 0 0 16).content =
      some (List.replicate 16 0) :=
  ⟨(empty_segment_cases.1 0 2 1 (ID.new [7] rfl)).1 rfl,
   (empty_segment_cases.1 3 0 1 (ID.new [7] rfl)).2.1 rfl,
   (empty_segment_cases.1 1 1 2 (ID.new [5, 6] rfl)).2.2 (by decide) (by decide),
   (empty_segment_cases.2 (ID.new (List.replicate 16 0) rfl)).2.2⟩

/-- Claim C9: for every kind `(P, E, N)` — including kinds with
`P + E > N` — and every byte array `b` of length `N`, `ID::new(b)` followed
by `as_bytes()` is the identity: the round trip never inspects `P` or `E`. -/
theorem new_as_bytes_roundtrip (P E N : Nat) (b : List Byte)
    (hb : b.length = N) :
    (ID.new b hb : ID P E N).as_bytes = b := rfl

theorem new_as_bytes_roundtrip_witness :
    (ID.new [1] rfl : ID 5 5 1).as_bytes = [1] :=
  new_as_bytes_roundtrip 5 5 1 [1] rfl

/-- Claim C10: the fallible parse never panics: the internal `unwrap` on
the slice-to-array conversion is reached only after the length check has
passed, and then the conversion always succeeds, so `tryFrom` always
returns a result (`none` would model a panic). -/
theorem parse_never_panics (P E N : Nat) (value : List Byte) :
    (tryFrom P E N value).isSome := by
  by_cases h : value.length = N
  · simp [tryFrom, h, sliceTryInto]
  · simp [tryFrom, h]

end Buid
